import Mathlib

/-!
Verification of the go-musicforprogramming episode acquisition-and-tagging
pipeline.  The repository holds three successive revisions of one program:
the first revision checks completeness by comparing the stat size with the
HEAD Content-Length (fileComplete); the intermediate revision disabled the
size check and delegates to metadataComplete (fileIsComplete); the latest
revision checks file existence and then metadataComplete inline in the
worker, re-tagging in place when metadata is incomplete.

The embedding below translates the feed-loading, completion-checking,
tagging and orchestration logic into pure Lean functions.  Filesystem and
network effects are passed in explicitly: a target file is a FileData
value, the cover read and the download are Option-valued inputs of the
per-episode environment, and the HEAD response is an Option Int.

The id3v2 library (bogem/id3v2 v1.2.0) stores APIC frames in a sequence
keyed by the frame description: AddFrame replaces the first frame whose
description equals the one being added and appends otherwise, both when
parsing a tag and when attaching a picture.  seqAddFrame and parsePics
translate that behaviour.
-/

/-- Go regexp character class \s, which is exactly tab, newline, form
feed, carriage return and space. -/
def goSpace (c : Char) : Bool :=
  c = '\t' || c = '\n' || c = '\x0c' || c = '\r' || c = ' '

/-- Strip an expected literal prefix from a character list, returning the
remainder on success. -/
def dropPrefixChars : List Char → List Char → Option (List Char)
  | [], cs => some cs
  | _ :: _, [] => none
  | p :: ps, c :: cs => if c = p then dropPrefixChars ps cs else none

/-- Matching of the regex fragment \s*(.+)$ against the text after the
colon, with RE2 leftmost-first submatch semantics: the greedy \s* takes
the longest all-whitespace prefix that still lets (.+) match the whole
remainder, and a dot never matches a newline. -/
def matchTitleTail (r : List Char) : Option (List Char) :=
  let t := r.dropWhile goSpace
  if t.isEmpty then
    match r.getLast? with
    | none => none
    | some c => if c = '\n' then none else some [c]
  else if t.contains '\n' then none
  else some t

/-- The title transform of loadEpisodes: full-string match of
Episode\s+(\d+):\s*(.+) returning the number and title captures.
Mirrors regexp.FindStringSubmatch on the anchored pattern. -/
def parseTitle (s : String) : Option (String × String) :=
  match dropPrefixChars "Episode".toList s.toList with
  | none => none
  | some r0 =>
    let ws := r0.takeWhile goSpace
    let r1 := r0.dropWhile goSpace
    if ws.isEmpty then none
    else
      let digits := r1.takeWhile Char.isDigit
      let r2 := r1.dropWhile Char.isDigit
      if digits.isEmpty then none
      else
        match r2 with
        | ':' :: r3 =>
          match matchTitleTail r3 with
          | none => none
          | some t => some (String.mk digits, String.mk t)
        | _ => none

/-- A feed enclosure: URL plus the declared length string. -/
structure Enclosure where
  url : String
  declaredLength : String
deriving DecidableEq, Repr

/-- A parsed feed item as delivered by the RSS parser. -/
structure FeedItem where
  title : String
  enclosures : List Enclosure
deriving DecidableEq, Repr

/-- Episode record built by loadEpisodes (latest revision: number, title
and enclosure URL; the number keeps its leading zeros as a string). -/
structure Episode where
  number : String
  title : String
  url : String
deriving DecidableEq, Repr

/-- Per-item step of loadEpisodes: skip items without enclosures, skip
titles that fail the pattern, otherwise build the episode from the two
captures and the first enclosure URL. -/
def itemToEpisode (item : FeedItem) : Option Episode :=
  match item.enclosures with
  | [] => none
  | enc :: _ =>
    match parseTitle item.title with
    | none => none
    | some (num, t) => some { number := num, title := t, url := enc.url }

/-- loadEpisodes over an already-parsed item list: collect matching items
in feed order, then reverse so the earliest episode comes first. -/
def loadEpisodes (items : List FeedItem) : List Episode :=
  (items.filterMap itemToEpisode).reverse

/-- Target filename derivation in the worker, fmt.Sprintf of
number, " - ", title and the .mp3 suffix. -/
def targetFileName (ep : Episode) : String :=
  ep.number ++ " - " ++ ep.title ++ ".mp3"

/-- Numeric value of a digit string, used to compare feed-declared
episode numbers. -/
def digitsVal (cs : List Char) : Nat :=
  cs.foldl (fun a c => 10 * a + (c.toNat - 48)) 0

/-- Feed-declared episode number of an episode record, as a natural. -/
def epNum (ep : Episode) : Nat := digitsVal ep.number.toList

/-- An ID3v2 attached-picture (APIC) frame as built by tagEpisode:
encoding key, MIME type, picture type, description and payload bytes. -/
structure PictureFrame where
  encoding : Nat
  mimeType : String
  pictureType : Nat
  description : String
  picture : List Nat
deriving DecidableEq, Repr

/-- The parsed metadata container of an MP3 file: the album text frame
and the sequence of APIC frames. -/
structure ID3Tag where
  album : String
  pics : List PictureFrame
deriving DecidableEq, Repr

/-- A present target file: the stat size in bytes, the audio bytes after
the tag, and the metadata container (none models a container that
id3v2.Open fails to parse).  The stat size is consulted only by the
revision-1 size check, which runs before any tagging. -/
structure MP3File where
  size : Int
  body : List Nat
  meta : Option ID3Tag
deriving DecidableEq, Repr

/-- State of a target path on disk. -/
inductive FileData where
  | absent
  | present (f : MP3File)
deriving DecidableEq, Repr

/-- The fixed album constant written and expected by the program. -/
def albumName : String := "Music For Programming"

/-- sequence.AddFrame of bogem/id3v2 v1.2.0 for picture frames: replace
the first frame whose description (the unique identifier of an APIC
frame) matches, append otherwise. -/
def seqAddFrame : List PictureFrame → PictureFrame → List PictureFrame
  | [], pf => [pf]
  | f :: fs, pf =>
    if f.description = pf.description then pf :: fs
    else f :: seqAddFrame fs pf

/-- Parsing a stored APIC frame list into the in-memory sequence: every
frame is added through sequence.AddFrame in order. -/
def parsePics (pics : List PictureFrame) : List PictureFrame :=
  pics.foldl seqAddFrame []

/-- id3v2.Open with Parse: it fails when the file is absent or its
container is unreadable, and otherwise yields the parsed tag (a file
without any tag parses as an empty tag, modelled as an ID3Tag with empty
album and no pics). -/
def openTag : FileData → Option ID3Tag
  | .absent => none
  | .present f =>
    match f.meta with
    | none => none
    | some m => some { album := m.album, pics := parsePics m.pics }

/-- metadataComplete: open the tag (propagating the open error), then
report false unless the album equals the fixed constant and at least one
APIC frame is present. -/
def metadataComplete (file : FileData) : Except Unit Bool :=
  match openTag file with
  | none => .error ()
  | some tag =>
    if tag.album ≠ albumName then .ok false
    else if tag.pics.length = 0 then .ok false
    else .ok true

/-- The boolean the callers extract from metadataComplete: the Go pattern
metaOk, err := metadataComplete(path) leaves metaOk false on error. -/
def metaOk (r : Except Unit Bool) : Bool :=
  match r with
  | .ok b => b
  | .error _ => false

/-- The picture frame tagEpisode attaches: UTF-8 encoding key, JPEG MIME
type, front-cover picture type and the fixed description Cover. -/
def coverFrame (cover : List Nat) : PictureFrame :=
  { encoding := 3
  , mimeType := "image/jpeg"
  , pictureType := 3
  , description := "Cover"
  , picture := cover }

/-- tagEpisode: open the tag (error if the file is absent or the
container unreadable), set the album constant, read the cover file
(error leaves the file unchanged because Save is never reached), attach
the picture through the sequence, and save.  Save keeps the audio bytes;
the post-save stat size is not consulted by any modelled check. -/
def tagEpisode (file : FileData) (coverBytes : Option (List Nat)) :
    Except Unit FileData :=
  match file with
  | .absent => .error ()
  | .present f =>
    match f.meta with
    | none => .error ()
    | some m =>
      match coverBytes with
      | none => .error ()
      | some c =>
        .ok (.present
          { size := f.size
          , body := f.body
          , meta := some
              { album := albumName
              , pics := seqAddFrame (parsePics m.pics) (coverFrame c) } })

/-- Revision-1 fileComplete: stat the path (false on error), issue a HEAD
request (false on transport error), then compare the stat size with the
response Content-Length.  The HEAD outcome is an explicit input, none
modelling a transport error. -/
def fileComplete (file : FileData) (headContentLength : Option Int) : Bool :=
  match file with
  | .absent => false
  | .present f =>
    match headContentLength with
    | none => false
    | some cl => f.size == cl

/-- Revision-2 fileIsComplete: the size check is disabled (commented
out), so the URL and expected size are ignored and the result is the
metadataComplete boolean with errors treated as incomplete. -/
def fileIsComplete (_url : String) (_expectedSize : Int) (file : FileData) :
    Bool :=
  metaOk (metadataComplete file)

/-- The latest revision completion decision inline in the worker: the
file must exist (os.Stat succeeds) and metadataComplete must report
true. -/
def episodeCompleteCheck (file : FileData) : Bool :=
  match file with
  | .absent => false
  | .present f => metaOk (metadataComplete (.present f))

/-- Completeness as the specification words it: the file exists, its
embedded album tag equals the fixed album constant, and its metadata
carries at least one APIC frame. -/
def specComplete (file : FileData) : Prop :=
  ∃ f tag, file = .present f ∧ openTag file = some tag ∧
    tag.album = albumName ∧ 0 < tag.pics.length

/-- Number of APIC frames carrying a given description. -/
def countDescr (d : String) (pics : List PictureFrame) : Nat :=
  pics.countP (fun f => f.description == d)

/-- Terminal status of one episode worker, matching the log line the
goroutine emits before returning. -/
inductive Outcome where
  | alreadyComplete
  | metadataUpdated
  | metadataUpdateFailed
  | downloadFailed
  | tagFailed
  | processed
deriving DecidableEq, Repr

/-- External conditions one episode worker runs against: the current
state of the target path, the outcome of reading cover.jpg, and the
outcome the download would produce (none models a transport or I/O
failure of downloadFile). -/
structure WorkerEnv where
  file : FileData
  coverBytes : Option (List Nat)
  download : Option MP3File
deriving Repr

/-- Observable result of one episode worker: terminal outcome, final
file state, whether downloadFile was invoked, whether tagEpisode was
invoked, and whether a metadata-read error was logged. -/
structure WorkerResult where
  outcome : Outcome
  file : FileData
  fetched : Bool
  tagAttempted : Bool
  loggedMetaReadError : Bool
deriving Repr

/-- The per-episode goroutine body of the latest revision: if the target
exists, consult metadataComplete (logging a read error), return when
complete, otherwise re-tag in place; if the target is absent, download
and then tag, stopping at the first failure. -/
def runWorker (env : WorkerEnv) : WorkerResult :=
  match env.file with
  | .present f =>
    let r := metadataComplete (.present f)
    let logged := match r with | .error _ => true | .ok _ => false
    if metaOk r then
      { outcome := .alreadyComplete, file := .present f, fetched := false
      , tagAttempted := false, loggedMetaReadError := logged }
    else
      match tagEpisode (.present f) env.coverBytes with
      | .error _ =>
        { outcome := .metadataUpdateFailed, file := .present f
        , fetched := false, tagAttempted := true
        , loggedMetaReadError := logged }
      | .ok f1 =>
        { outcome := .metadataUpdated, file := f1, fetched := false
        , tagAttempted := true, loggedMetaReadError := logged }
  | .absent =>
    match env.download with
    | none =>
      { outcome := .downloadFailed, file := .absent, fetched := true
      , tagAttempted := false, loggedMetaReadError := false }
    | some dl =>
      match tagEpisode (.present dl) env.coverBytes with
      | .error _ =>
        { outcome := .tagFailed, file := .present dl, fetched := true
        , tagAttempted := true, loggedMetaReadError := false }
      | .ok f1 =>
        { outcome := .processed, file := f1, fetched := true
        , tagAttempted := true, loggedMetaReadError := false }

/-- Audio bytes of a file state, when the file is present. -/
def fileBody : FileData → Option (List Nat)
  | .absent => none
  | .present f => some f.body

/-- Outcomes of the three fatal setup steps of main: output directory
creation, cover fetch, and feed load (none models a feed fetch or parse
failure). -/
structure SetupEnv where
  prepareOk : Bool
  coverFetchOk : Bool
  feedItems : Option (List FeedItem)

/-- main: each failing setup step exits with status 1 via log.Fatalf;
otherwise every loaded episode runs its worker against its environment
and the process reaches the wait barrier and exits 0.  The returned
list holds one terminal worker result per episode. -/
def runMain (setup : SetupEnv) (world : Episode → WorkerEnv) :
    Nat × List WorkerResult :=
  if setup.prepareOk = false then (1, [])
  else if setup.coverFetchOk = false then (1, [])
  else
    match setup.feedItems with
    | none => (1, [])
    | some items =>
      (0, (loadEpisodes items).map (fun ep => runWorker (world ep)))

/-- Dispatch-loop state of downloadAndTagEpisodes: episodes not yet
dispatched, workers currently holding one of the three semaphore slots,
and workers that have released their slot. -/
structure PoolState where
  pending : List Episode
  active : Nat
  finished : Nat
deriving DecidableEq, Repr

/-- One dispatch attempt of the loop: sending on the semaphore channel
succeeds only while fewer than 3 slots are taken; otherwise the loop is
blocked and no new episode task starts. -/
def tryDispatch (s : PoolState) : Option PoolState :=
  match s.pending with
  | [] => none
  | _ :: rest =>
    if s.active < 3 then some ⟨rest, s.active + 1, s.finished⟩ else none

/-- Transitions of the pipeline: a successful dispatch, or a running
worker finishing and releasing its semaphore slot. -/
inductive poolStep : PoolState → PoolState → Prop
  | dispatch (s s1 : PoolState) : tryDispatch s = some s1 → poolStep s s1
  | finish (p : List Episode) (a c : Nat) :
      poolStep ⟨p, a + 1, c⟩ ⟨p, a, c + 1⟩

/-- Initial pipeline state: every episode pending, no slot taken. -/
def poolInit (eps : List Episode) : PoolState := ⟨eps, 0, 0⟩

/-- States the pipeline can reach during a run over a given episode
list. -/
def poolReachable (eps : List Episode) (s : PoolState) : Prop :=
  Relation.ReflTransGen poolStep (poolInit eps) s

/-- A sample episode for concrete pipeline runs. -/
def sampleEpisode : Episode := { number := "01", title := "a", url := "u" }

/-- Descriptions of a frame list, the unique identifiers the id3v2
sequence keys frames by. -/
def descs (l : List PictureFrame) : List String :=
  l.map PictureFrame.description

theorem mem_descs_seqAddFrame {d : String} {l : List PictureFrame}
    {pf : PictureFrame} (h : d ∈ descs (seqAddFrame l pf)) :
    d = pf.description ∨ d ∈ descs l := by
  induction l with
  | nil =>
    simp [descs, seqAddFrame] at h
    exact Or.inl h
  | cons f fs ih =>
    by_cases hd : f.description = pf.description
    · simp [descs, seqAddFrame, hd] at h
      rcases h with h | h
      · exact Or.inl h
      · exact Or.inr (by simp [descs]; exact Or.inr h)
    · simp only [seqAddFrame, if_neg hd, descs, List.map_cons,
        List.mem_cons] at h
      rcases h with h | h
      · exact Or.inr (by simp [descs, h])
      · rcases ih h with h1 | h1
        · exact Or.inl h1
        · exact Or.inr (by simp [descs] at h1 ⊢; exact Or.inr h1)

theorem self_mem_descs_seqAddFrame (l : List PictureFrame)
    (pf : PictureFrame) : pf.description ∈ descs (seqAddFrame l pf) := by
  induction l with
  | nil => simp [descs, seqAddFrame]
  | cons f fs ih =>
    by_cases hd : f.description = pf.description
    · simp [descs, seqAddFrame, hd]
    · simp only [seqAddFrame, if_neg hd, descs, List.map_cons,
        List.mem_cons]
      exact Or.inr (by simpa [descs] using ih)

theorem nodup_descs_seqAddFrame {l : List PictureFrame}
    (hl : (descs l).Nodup) (pf : PictureFrame) :
    (descs (seqAddFrame l pf)).Nodup := by
  induction l with
  | nil => simp [descs, seqAddFrame]
  | cons f fs ih =>
    rw [descs, List.map_cons, List.nodup_cons] at hl
    by_cases hd : f.description = pf.description
    · simp only [seqAddFrame, if_pos hd, descs, List.map_cons,
        List.nodup_cons]
      exact ⟨hd ▸ hl.1, hl.2⟩
    · simp only [seqAddFrame, if_neg hd, descs, List.map_cons,
        List.nodup_cons]
      refine ⟨fun hmem => ?_, ih hl.2⟩
      rcases mem_descs_seqAddFrame hmem with h1 | h1
      · exact hd h1
      · exact hl.1 h1

theorem seqAddFrame_of_not_mem {l : List PictureFrame}
    {pf : PictureFrame} (h : pf.description ∉ descs l) :
    seqAddFrame l pf = l ++ [pf] := by
  induction l with
  | nil => rfl
  | cons f fs ih =>
    rw [descs, List.map_cons, List.mem_cons] at h
    push_neg at h
    rw [seqAddFrame, if_neg (fun he => h.1 he.symm), ih h.2]
    rfl

theorem foldl_seqAddFrame_nodup (l : List PictureFrame) :
    ∀ acc : List PictureFrame, (descs acc).Nodup →
      (descs (l.foldl seqAddFrame acc)).Nodup := by
  induction l with
  | nil => intro acc hacc; simpa using hacc
  | cons pf fs ih =>
    intro acc hacc
    exact ih (seqAddFrame acc pf) (nodup_descs_seqAddFrame hacc pf)

theorem nodup_descs_parsePics (l : List PictureFrame) :
    (descs (parsePics l)).Nodup :=
  foldl_seqAddFrame_nodup l [] (by simp [descs])

theorem foldl_seqAddFrame_eq (l : List PictureFrame) :
    ∀ acc : List PictureFrame, (descs (acc ++ l)).Nodup →
      l.foldl seqAddFrame acc = acc ++ l := by
  induction l with
  | nil => intro acc _; simp
  | cons pf fs ih =>
    intro acc hacc
    have hnot : pf.description ∉ descs acc := by
      intro hmem
      have : ¬ (descs (acc ++ pf :: fs)).Nodup := by
        rw [descs, List.map_append]
        intro hnd
        rcases List.disjoint_of_nodup_append hnd |>.symm with _
        exact absurd (List.disjoint_of_nodup_append hnd hmem (by simp [descs]))
          (fun h => h)
      exact this hacc
    rw [List.foldl_cons, seqAddFrame_of_not_mem hnot,
      ih (acc ++ [pf]) (by simpa using hacc)]
    simp

theorem parsePics_eq_of_nodup {l : List PictureFrame}
    (h : (descs l).Nodup) : parsePics l = l := by
  have := foldl_seqAddFrame_eq l [] (by simpa [descs] using h)
  simpa [parsePics] using this

theorem seqAddFrame_idem (l : List PictureFrame) (pf : PictureFrame) :
    seqAddFrame (seqAddFrame l pf) pf = seqAddFrame l pf := by
  induction l with
  | nil => simp [seqAddFrame]
  | cons f fs ih =>
    by_cases hd : f.description = pf.description
    · simp [seqAddFrame, hd]
    · simp only [seqAddFrame, if_neg hd]
      rw [ih]

theorem countDescr_eq_count (d : String) (l : List PictureFrame) :
    countDescr d l = (descs l).count d := by
  induction l with
  | nil => rfl
  | cons f fs ih =>
    simp only [countDescr, List.countP_cons, descs, List.map_cons,
      List.count_cons] at *
    rw [ih]

theorem tagEpisode_eq_ok {f : MP3File} {c : Option (List Nat)}
    {out : FileData} (h : tagEpisode (.present f) c = .ok out) :
    ∃ m cov, f.meta = some m ∧ c = some cov ∧
      out = .present
        { size := f.size, body := f.body
        , meta := some
            { album := albumName
            , pics := seqAddFrame (parsePics m.pics) (coverFrame cov) } } := by
  cases hm : f.meta with
  | none => rw [tagEpisode, hm] at h; cases h
  | some m =>
    cases hc : c with
    | none => rw [tagEpisode, hm, hc] at h; cases h
    | some cov =>
      rw [tagEpisode, hm, hc] at h
      cases h
      exact ⟨m, cov, rfl, rfl, rfl⟩

/-- C1 (amended): the metadata-based completion checks of the two later
revisions agree and judge a file complete exactly when it exists, its
embedded album tag equals the fixed album constant, and its metadata
carries at least one APIC frame; the revision-1 size-only check is the
exception recorded by the counterexample. -/
theorem completionCheck_metadata_iff (file : FileData) :
    episodeCompleteCheck file = fileIsComplete "" 0 file ∧
    (episodeCompleteCheck file = true ↔ specComplete file) := by
  constructor
  · cases file with
    | absent => rfl
    | present f => rfl
  · cases file with
    | absent =>
      simp [episodeCompleteCheck, specComplete]
    | present f =>
      cases hm : f.meta with
      | none =>
        simp [episodeCompleteCheck, metadataComplete, openTag, hm, metaOk,
          specComplete]
      | some m =>
        simp only [episodeCompleteCheck, metadataComplete, openTag, hm,
          metaOk, specComplete]
        split_ifs with halb hlen
        · constructor
          · intro h; cases h
          · rintro ⟨f1, tag, hf, htag, halb1, _⟩
            cases hf
            cases htag
            exact absurd halb1 halb
        · constructor
          · intro h; cases h
          · rintro ⟨f1, tag, hf, htag, _, hpos⟩
            cases hf
            cases htag
            simp only at hpos hlen
            omega
        · constructor
          · intro _
            push_neg at halb
            exact ⟨f, _, rfl, rfl, halb, Nat.pos_of_ne_zero hlen⟩
          · intro _; rfl

/-- C1 counterexample: the revision-1 size-only fileComplete reports an
existing untagged file (empty album, no APIC frame) as complete when its
stat size matches the HEAD Content-Length, so the claim that no variant
of the check reports complete for a file lacking the album tag fails. -/
theorem fileComplete_ignores_metadata_counterexample :
    fileComplete
      (.present { size := 100, body := [], meta := some { album := "", pics := [] } })
      (some 100) = true ∧
    ¬ specComplete
      (.present { size := 100, body := [], meta := some { album := "", pics := [] } }) := by
  refine ⟨rfl, ?_⟩
  rintro ⟨f, tag, hf, htag, halb, -⟩
  cases hf
  simp only [openTag, parsePics, List.foldl_nil, Option.some.injEq] at htag
  rw [← htag] at halb
  exact absurd halb (by decide)

/-- C8: the feed item titled Episode 07: Night Drive with enclosure URL
https host ep07.mp3 loads as the episode with number 07 (leading zero
kept), title Night Drive and that source URL, and the derived target
filename is 07 - Night Drive.mp3. -/
theorem episode07_example :
    loadEpisodes [⟨"Episode 07: Night Drive", [⟨"https://host/ep07.mp3", ""⟩]⟩] =
      [{ number := "07", title := "Night Drive", url := "https://host/ep07.mp3" }] ∧
    targetFileName
      { number := "07", title := "Night Drive", url := "https://host/ep07.mp3" } =
      "07 - Night Drive.mp3" :=
  ⟨by decide, rfl⟩

/-- C9: for an item with a matching title, the episode URL is taken from
the first enclosure of the item and any further enclosures are ignored. -/
theorem sourceURL_from_first_enclosure (item : FeedItem) (enc : Enclosure)
    (rest : List Enclosure) (num t : String)
    (hencl : item.enclosures = enc :: rest)
    (htitle : parseTitle item.title = some (num, t)) :
    itemToEpisode item = some { number := num, title := t, url := enc.url } := by
  rw [itemToEpisode, hencl, htitle]

theorem sourceURL_from_first_enclosure_witness :
    itemToEpisode
      ⟨"Episode 07: Night Drive", [⟨"https://host/ep07.mp3", ""⟩, ⟨"https://host/alt.mp3", "9"⟩]⟩ =
      some { number := "07", title := "Night Drive", url := "https://host/ep07.mp3" } :=
  sourceURL_from_first_enclosure
    ⟨"Episode 07: Night Drive", [⟨"https://host/ep07.mp3", ""⟩, ⟨"https://host/alt.mp3", "9"⟩]⟩
    ⟨"https://host/ep07.mp3", ""⟩ [⟨"https://host/alt.mp3", "9"⟩] "07" "Night Drive"
    rfl (by decide)

/-- C6: an item without enclosure, or whose title fails the Episode
pattern, contributes no episode record, and removing it from the feed
leaves the loaded list unchanged: the remaining items still load. -/
theorem malformed_item_excluded (pre post : List FeedItem) (item : FeedItem)
    (h : item.enclosures = [] ∨ parseTitle item.title = none) :
    itemToEpisode item = none ∧
    loadEpisodes (pre ++ item :: post) = loadEpisodes (pre ++ post) := by
  have hnone : itemToEpisode item = none := by
    rcases h with h | h
    · rw [itemToEpisode, h]
    · cases he : item.enclosures with
      | nil => rw [itemToEpisode, he]
      | cons e es => rw [itemToEpisode, he, h]
  refine ⟨hnone, ?_⟩
  unfold loadEpisodes
  rw [List.filterMap_append, List.filterMap_append, List.filterMap_cons,
    hnone]

theorem malformed_item_excluded_witness :
    itemToEpisode ⟨"Bonus interlude", [⟨"https://host/x.mp3", ""⟩]⟩ = none ∧
    loadEpisodes
      ([⟨"Episode 2: B", [⟨"u2", ""⟩]⟩] ++
        ⟨"Bonus interlude", [⟨"https://host/x.mp3", ""⟩]⟩ ::
        [⟨"Episode 1: A", [⟨"u1", ""⟩]⟩]) =
      loadEpisodes ([⟨"Episode 2: B", [⟨"u2", ""⟩]⟩] ++ [⟨"Episode 1: A", [⟨"u1", ""⟩]⟩]) :=
  malformed_item_excluded [⟨"Episode 2: B", [⟨"u2", ""⟩]⟩]
    [⟨"Episode 1: A", [⟨"u1", ""⟩]⟩]
    ⟨"Bonus interlude", [⟨"https://host/x.mp3", ""⟩]⟩ (Or.inr (by decide))

/-- C5: when the matching items arrive newest first, with strictly
descending feed-declared episode numbers, the loaded list is the reverse
of the collected list and is strictly ascending by episode number. -/
theorem episodes_ascending (items : List FeedItem)
    (hdesc : ((items.filterMap itemToEpisode).map epNum).Chain'
      (fun a b => b < a)) :
    loadEpisodes items = (items.filterMap itemToEpisode).reverse ∧
    ((loadEpisodes items).map epNum).Chain' (fun a b => a < b) := by
  refine ⟨rfl, ?_⟩
  unfold loadEpisodes
  rw [List.map_reverse]
  exact List.chain'_reverse.mpr hdesc

theorem episodes_ascending_witness :
    loadEpisodes [⟨"Episode 2: B", [⟨"u2", ""⟩]⟩, ⟨"Episode 1: A", [⟨"u1", ""⟩]⟩] =
      ([⟨"Episode 2: B", [⟨"u2", ""⟩]⟩, ⟨"Episode 1: A", [⟨"u1", ""⟩]⟩].filterMap
        itemToEpisode).reverse ∧
    ((loadEpisodes [⟨"Episode 2: B", [⟨"u2", ""⟩]⟩, ⟨"Episode 1: A", [⟨"u1", ""⟩]⟩]).map
      epNum).Chain' (fun a b => a < b) :=
  episodes_ascending
    [⟨"Episode 2: B", [⟨"u2", ""⟩]⟩, ⟨"Episode 1: A", [⟨"u1", ""⟩]⟩]
    (by
      have h : ((([⟨"Episode 2: B", [⟨"u2", ""⟩]⟩,
          ⟨"Episode 1: A", [⟨"u1", ""⟩]⟩] : List FeedItem).filterMap
            itemToEpisode).map epNum) = [2, 1] := by decide
      rw [h]
      exact List.chain'_pair.mpr (by decide))

/-- C3: when the target file exists but metadataComplete reports it
incomplete, the worker re-tags only: downloadFile is never invoked for
that episode and the audio bytes of the file are unchanged. -/
theorem retag_without_refetch (env : WorkerEnv) (f : MP3File)
    (hfile : env.file = .present f)
    (hincomplete : metadataComplete (.present f) = .ok false) :
    (runWorker env).fetched = false ∧ (runWorker env).tagAttempted = true ∧
    fileBody (runWorker env).file = some f.body := by
  simp only [runWorker, hfile, hincomplete, metaOk]
  cases htag : tagEpisode (.present f) env.coverBytes with
  | error e => simp [htag, fileBody]
  | ok f1 =>
    obtain ⟨m, cov, hm, hcov, hout⟩ := tagEpisode_eq_ok htag
    subst hout
    simp [htag, fileBody]

theorem retag_without_refetch_witness :
    (runWorker ⟨.present ⟨5, [1], some ⟨"", []⟩⟩, some [7], none⟩).fetched = false ∧
    (runWorker ⟨.present ⟨5, [1], some ⟨"", []⟩⟩, some [7], none⟩).tagAttempted = true ∧
    fileBody (runWorker ⟨.present ⟨5, [1], some ⟨"", []⟩⟩, some [7], none⟩).file =
      some (⟨5, [1], some ⟨"", []⟩⟩ : MP3File).body :=
  retag_without_refetch ⟨.present ⟨5, [1], some ⟨"", []⟩⟩, some [7], none⟩
    ⟨5, [1], some ⟨"", []⟩⟩ rfl rfl

/-- C10: when the target file exists but its metadata container cannot
be read, the worker logs the read error, still attempts re-tagging the
file, never re-downloads, and does not skip the episode as already
complete. -/
theorem metaReadError_still_retagged (env : WorkerEnv) (f : MP3File)
    (hfile : env.file = .present f)
    (herr : metadataComplete (.present f) = .error ()) :
    (runWorker env).loggedMetaReadError = true ∧
    (runWorker env).tagAttempted = true ∧
    (runWorker env).fetched = false ∧
    (runWorker env).outcome ≠ Outcome.alreadyComplete := by
  simp only [runWorker, hfile, herr, metaOk]
  cases htag : tagEpisode (.present f) env.coverBytes with
  | error e => simp [htag]
  | ok f1 => simp [htag]

theorem metaReadError_still_retagged_witness :
    (runWorker ⟨.present ⟨5, [1], none⟩, some [7], none⟩).loggedMetaReadError = true ∧
    (runWorker ⟨.present ⟨5, [1], none⟩, some [7], none⟩).tagAttempted = true ∧
    (runWorker ⟨.present ⟨5, [1], none⟩, some [7], none⟩).fetched = false ∧
    (runWorker ⟨.present ⟨5, [1], none⟩, some [7], none⟩).outcome ≠
      Outcome.alreadyComplete :=
  metaReadError_still_retagged ⟨.present ⟨5, [1], none⟩, some [7], none⟩
    ⟨5, [1], none⟩ rfl rfl

/-- C7: once the three fatal setup steps succeed, the run exits with
status 0 and produces one terminal worker result per loaded episode,
whatever per-episode fetch, tag or metadata-read failures the
environments hold; the exit status is the same under any two
environments. -/
theorem per_episode_failures_isolated (setup : SetupEnv)
    (items : List FeedItem) (world world1 : Episode → WorkerEnv)
    (hprep : setup.prepareOk = true) (hcover : setup.coverFetchOk = true)
    (hfeed : setup.feedItems = some items) :
    (runMain setup world).1 = 0 ∧
    (runMain setup world).2.length = (loadEpisodes items).length ∧
    (runMain setup world).1 = (runMain setup world1).1 := by
  simp [runMain, hprep, hcover, hfeed]

theorem per_episode_failures_isolated_witness :
    (runMain ⟨true, true, some [⟨"Episode 1: A", [⟨"u1", ""⟩]⟩]⟩
      (fun _ => ⟨.absent, some [7], some ⟨1, [2], some ⟨"", []⟩⟩⟩)).1 = 0 ∧
    (runMain ⟨true, true, some [⟨"Episode 1: A", [⟨"u1", ""⟩]⟩]⟩
      (fun _ => ⟨.absent, some [7], some ⟨1, [2], some ⟨"", []⟩⟩⟩)).2.length =
      (loadEpisodes [⟨"Episode 1: A", [⟨"u1", ""⟩]⟩]).length ∧
    (runMain ⟨true, true, some [⟨"Episode 1: A", [⟨"u1", ""⟩]⟩]⟩
      (fun _ => ⟨.absent, some [7], some ⟨1, [2], some ⟨"", []⟩⟩⟩)).1 =
    (runMain ⟨true, true, some [⟨"Episode 1: A", [⟨"u1", ""⟩]⟩]⟩
      (fun _ => ⟨.absent, none, none⟩)).1 :=
  per_episode_failures_isolated ⟨true, true, some [⟨"Episode 1: A", [⟨"u1", ""⟩]⟩]⟩
    [⟨"Episode 1: A", [⟨"u1", ""⟩]⟩]
    (fun _ => ⟨.absent, some [7], some ⟨1, [2], some ⟨"", []⟩⟩⟩)
    (fun _ => ⟨.absent, none, none⟩) rfl rfl rfl

/-- C4: in every state the pipeline can reach, at most 3 episode tasks
hold a semaphore slot (so at most 3 episodes are fetching or tagging),
and while all 3 slots are taken no new dispatch can happen: the loop
stays blocked until a slot frees. -/
theorem concurrency_cap_at_three (eps : List Episode) (s : PoolState)
    (h : poolReachable eps s) :
    s.active ≤ 3 ∧ (s.active = 3 → tryDispatch s = none) := by
  constructor
  · unfold poolReachable at h
    induction h with
    | refl => simp [poolInit]
    | tail _hr hstep ih =>
      cases hstep with
      | dispatch s1 s2 hd =>
        unfold tryDispatch at hd
        split at hd
        · cases hd
        · split at hd
          · cases hd
            simp only
            omega
          · cases hd
      | finish p a c =>
        simp only at ih ⊢
        omega
  · intro h3
    unfold tryDispatch
    split
    · rfl
    · rw [if_neg (by omega)]

theorem concurrency_cap_at_three_witness :
    (⟨[sampleEpisode], 3, 0⟩ : PoolState).active ≤ 3 ∧
    ((⟨[sampleEpisode], 3, 0⟩ : PoolState).active = 3 →
      tryDispatch ⟨[sampleEpisode], 3, 0⟩ = none) :=
  concurrency_cap_at_three
    [sampleEpisode, sampleEpisode, sampleEpisode, sampleEpisode]
    ⟨[sampleEpisode], 3, 0⟩
    (Relation.ReflTransGen.tail
      (Relation.ReflTransGen.tail
        (Relation.ReflTransGen.tail Relation.ReflTransGen.refl
          (poolStep.dispatch _ _ rfl))
        (poolStep.dispatch _ _ rfl))
      (poolStep.dispatch _ _ rfl))

/-- C2: tagEpisode is idempotent: on any file it accepts, the second
application returns exactly the file the first produced, the completion
check judges that file complete, and its metadata holds exactly one
frame carrying the cover description, with no duplicate-frame
accumulation. -/
theorem tagEpisode_idempotent (file : FileData) (cover : Option (List Nat))
    (f1 f2 : FileData)
    (h1 : tagEpisode file cover = .ok f1)
    (h2 : tagEpisode f1 cover = .ok f2) :
    f2 = f1 ∧ episodeCompleteCheck f2 = true ∧
    ∃ g tag, f2 = .present g ∧ g.meta = some tag ∧
      countDescr "Cover" tag.pics = 1 := by
  cases file with
  | absent => rw [tagEpisode] at h1; cases h1
  | present f =>
    obtain ⟨m, cov, hm, hcov, hout⟩ := tagEpisode_eq_ok h1
    have hnd : (descs (parsePics m.pics)).Nodup := nodup_descs_parsePics m.pics
    have hndP : (descs (seqAddFrame (parsePics m.pics) (coverFrame cov))).Nodup :=
      nodup_descs_seqAddFrame hnd (coverFrame cov)
    have hparse : parsePics (seqAddFrame (parsePics m.pics) (coverFrame cov)) =
        seqAddFrame (parsePics m.pics) (coverFrame cov) :=
      parsePics_eq_of_nodup hndP
    have hmem : (coverFrame cov).description ∈
        descs (seqAddFrame (parsePics m.pics) (coverFrame cov)) :=
      self_mem_descs_seqAddFrame (parsePics m.pics) (coverFrame cov)
    have hne : seqAddFrame (parsePics m.pics) (coverFrame cov) ≠ [] := by
      intro h0
      rw [h0] at hmem
      simp [descs] at hmem
    subst hout
    obtain ⟨m1, cov1, hm1, hcov1, hout1⟩ := tagEpisode_eq_ok h2
    simp only [Option.some.injEq] at hm1
    rw [hcov] at hcov1
    injection hcov1 with hcov1
    subst hcov1
    subst hm1
    simp only at hout1
    rw [hparse, seqAddFrame_idem] at hout1
    subst hout1
    refine ⟨rfl, ?_, ?_⟩
    · simp only [episodeCompleteCheck, metadataComplete, openTag, hparse,
        metaOk]
      rw [if_neg (by simp), if_neg (by simpa using fun h0 => hne h0)]
    · refine ⟨_, _, rfl, rfl, ?_⟩
      rw [countDescr_eq_count]
      exact List.count_eq_one_of_mem hndP hmem

theorem tagEpisode_idempotent_witness :
    (FileData.present ⟨5, [1], some ⟨albumName, [coverFrame [7]]⟩⟩ =
      FileData.present ⟨5, [1], some ⟨albumName, [coverFrame [7]]⟩⟩) ∧
    episodeCompleteCheck
      (.present ⟨5, [1], some ⟨albumName, [coverFrame [7]]⟩⟩) = true ∧
    ∃ g tag,
      FileData.present ⟨5, [1], some ⟨albumName, [coverFrame [7]]⟩⟩ =
        .present g ∧ g.meta = some tag ∧
      countDescr "Cover" tag.pics = 1 :=
  tagEpisode_idempotent (.present ⟨5, [1], some ⟨"", []⟩⟩) (some [7])
    (.present ⟨5, [1], some ⟨albumName, [coverFrame [7]]⟩⟩)
    (.present ⟨5, [1], some ⟨albumName, [coverFrame [7]]⟩⟩) rfl rfl
